import Mathlib

/-!
Verification of the PinMyPic face-recognition service core
(`server/face-recognition/`): the similarity engine (`gpu_similarity.py`),
the HTTP worker pool (`app.py`) and the dynamic batch processor
(`dynamic_batch_processor.py`), shallowly embedded over exact reals.

Embeddings are lists of reals; a candidate matrix is a list of rows.
External collaborators (network fetches, image decoding, the embedding
model, the accelerator libraries) are modelled by explicit outcome
parameters: an `Except` value stands for "the call returned normally /
raised an exception carrying this message".
-/

namespace PinMyPic

/-! ## Numeric core (gpu_similarity.py) -/

/-- Dot product of two vectors, `np.dot` on 1-D arrays. -/
noncomputable def dotList (a b : List ℝ) : ℝ :=
  (List.zipWith (fun x y => x * y) a b).sum

/-- Sum of squares of the entries of a vector. -/
noncomputable def sumSq (v : List ℝ) : ℝ :=
  (v.map (fun x => x * x)).sum

/-- Euclidean norm, `np.linalg.norm` on a 1-D array. -/
noncomputable def norm2 (v : List ℝ) : ℝ :=
  Real.sqrt (sumSq v)

/-- Whether every candidate row has the query's dimension.  When this fails
(and the candidate list is nonempty) `np.dot(query, stored.T)` raises a
shape-mismatch `ValueError` inside `_numpy_cosine_similarity`'s `try` block. -/
def dimsMatch (q : List ℝ) (cs : List (List ℝ)) : Bool :=
  cs.all (fun c => c.length == q.length)

/-- Modelled from the spec: `result[i] = dot(query, candidates[i]) /
(‖query‖ · ‖candidates[i]‖)`, one score per candidate, in order. -/
noncomputable def specCosineSimilarityBatch (q : List ℝ) (cs : List (List ℝ)) : List ℝ :=
  cs.map (fun c => dotList q c / (norm2 q * norm2 c))

/-- The cosine score of one candidate against the query. -/
noncomputable def simScore (q c : List ℝ) : ℝ :=
  dotList q c / (norm2 q * norm2 c)

/-- `GPUSimilarityCalculator._numpy_cosine_similarity`: compute the query
norm, the per-row norms and dot products, and divide elementwise; on an
exception (dimension mismatch) return `np.zeros(len(stored_embeddings))`. -/
noncomputable def numpy_cosine_similarity (q : List ℝ) (cs : List (List ℝ)) : List ℝ :=
  if dimsMatch q cs then
    List.zipWith (fun d n => d / (norm2 q * n))
      (cs.map (fun c => dotList q c)) (cs.map norm2)
  else
    List.replicate cs.length 0

/-- The three numerical backends of `GPUSimilarityCalculator`. -/
inductive Device
  | cupy
  | torch
  | numpy
deriving DecidableEq

/-- Outcome of a call to `torch.cuda.is_available()`: it returns `True`,
returns `False`, or raises. -/
inductive TorchCudaOutcome
  | avail
  | unavail
  | raised
deriving DecidableEq

/-- Environment seen at construction: whether the two accelerator libraries
imported (`CUPY_AVAILABLE`, `TORCH_AVAILABLE`), whether the CuPy test
operation (`cp.linalg.norm` on a small array) completes, and the outcome of
`torch.cuda.is_available()`. -/
structure BackendEnv where
  cupyAvailable : Bool
  torchAvailable : Bool
  cupyProbeOk : Bool
  torchCudaIsAvailable : TorchCudaOutcome
deriving DecidableEq

/-- `GPUSimilarityCalculator._check_gpu_availability`: probe CuPy first
(any exception is caught, yielding `False` without consulting torch), else
probe torch (an exception from `torch.cuda.is_available` is caught). -/
def check_gpu_availability (e : BackendEnv) : Bool :=
  if e.cupyAvailable then
    e.cupyProbeOk
  else if e.torchAvailable then
    match e.torchCudaIsAvailable with
    | TorchCudaOutcome.avail => true
    | TorchCudaOutcome.unavail => false
    | TorchCudaOutcome.raised => false
  else
    false

/-- `GPUSimilarityCalculator._get_best_device`.  The second branch calls
`torch.cuda.is_available()` with no surrounding `try`, so a raise there
propagates out of the constructor (`Except.error`). -/
def get_best_device (e : BackendEnv) (gpuAvailable : Bool) : Except Unit Device :=
  if e.cupyAvailable && gpuAvailable then
    Except.ok Device.cupy
  else if e.torchAvailable then
    match e.torchCudaIsAvailable with
    | TorchCudaOutcome.avail => Except.ok Device.torch
    | TorchCudaOutcome.unavail => Except.ok Device.numpy
    | TorchCudaOutcome.raised => Except.error ()
  else
    Except.ok Device.numpy

/-- State of a constructed `GPUSimilarityCalculator`. -/
structure CalcState where
  env : BackendEnv
  gpu_available : Bool
  device : Device
deriving DecidableEq

/-- `GPUSimilarityCalculator.__init__`: run the availability check, then the
device selection; an uncaught exception in the latter aborts construction. -/
def initCalculator (e : BackendEnv) : Except Unit CalcState :=
  let g := check_gpu_availability e
  match get_best_device e g with
  | Except.ok d => Except.ok ⟨e, g, d⟩
  | Except.error u => Except.error u

/-- Per-call environment: whether the CuPy (resp. torch) computation raises
during this call, and the value the external `torch.nn.functional`
cosine-similarity kernel returns when it completes. -/
structure CallEnv where
  cupyRaises : Bool
  torchRaises : Bool
  torchCompute : List ℝ → List (List ℝ) → List ℝ

/-- A concrete CPU-only environment: neither accelerator library imported. -/
def cpuEnv : BackendEnv :=
  ⟨false, false, true, TorchCudaOutcome.unavail⟩

/-- A concrete calculator that selected the NumPy backend. -/
def numpyCalc : CalcState :=
  ⟨cpuEnv, false, Device.numpy⟩

/-- A concrete call environment in which no backend raises. -/
def quietCall : CallEnv :=
  ⟨false, false, fun _ _ => []⟩

/-- A concrete call environment in which both accelerated backends raise. -/
def failingCall : CallEnv :=
  ⟨true, true, fun _ _ => []⟩

/-- `GPUSimilarityCalculator._cupy_cosine_similarity`: the `try` block
computes the same norm/dot/divide formula on the GPU (a dimension mismatch
raises inside it); any exception falls back to the NumPy path. -/
noncomputable def cupy_cosine_similarity (ce : CallEnv) (q : List ℝ) (cs : List (List ℝ)) :
    List ℝ :=
  if ce.cupyRaises then
    numpy_cosine_similarity q cs
  else if dimsMatch q cs then
    List.zipWith (fun d n => d / (norm2 q * n))
      (cs.map (fun c => dotList q c)) (cs.map norm2)
  else
    numpy_cosine_similarity q cs

/-- `GPUSimilarityCalculator._torch_cosine_similarity`: the `try` block
delegates to the external torch kernel; any exception falls back to the
NumPy path. -/
noncomputable def torch_cosine_similarity (ce : CallEnv) (q : List ℝ) (cs : List (List ℝ)) :
    List ℝ :=
  if ce.torchRaises then
    numpy_cosine_similarity q cs
  else
    ce.torchCompute q cs

/-- `GPUSimilarityCalculator.cosine_similarity_batch`: dispatch on the
selected device, guarded by the import flags. -/
noncomputable def cosine_similarity_batch (st : CalcState) (ce : CallEnv) (q : List ℝ)
    (cs : List (List ℝ)) : List ℝ :=
  if st.device = Device.cupy ∧ st.env.cupyAvailable = true then
    cupy_cosine_similarity ce q cs
  else if st.device = Device.torch ∧ st.env.torchAvailable = true then
    torch_cosine_similarity ce q cs
  else
    numpy_cosine_similarity q cs

/-! ## File-reference classification (app.py, process_worker) -/

/-- Whether the second list is a leading pattern of the first. -/
def startsWithList : List Char → List Char → Bool
  | _, [] => true
  | [], _ :: _ => false
  | a :: as, b :: bs => a == b && startsWithList as bs

/-- Whether the pattern occurs contiguously anywhere in the list. -/
def hasSubstrList : List Char → List Char → Bool
  | [], pat => pat.isEmpty
  | a :: s, pat => startsWithList (a :: s) pat || hasSubstrList s pat

/-- The sixteen lowercase hexadecimal digits. -/
def hexDigitsLower : List Char :=
  "0123456789abcdef".toList

/-- The first `process_worker` branch test:
`photo_path.startswith('http') and 'cloudinary.com' in photo_path`. -/
def isCloudinaryUrl (p : String) : Bool :=
  startsWithList p.toList ("http".toList) && hasSubstrList p.toList ("cloudinary.com".toList)

/-- The second `process_worker` branch test: `len(photo_path) == 24 and
all(c in '0123456789abcdef' for c in photo_path.lower())`.  Note the
`.lower()`: the check is case-insensitive. -/
def isGridFSRef (p : String) : Bool :=
  p.toList.length == 24 && (p.toList.map Char.toLower).all (fun c => hexDigitsLower.contains c)

/-- The three kinds of `file_reference` the worker distinguishes. -/
inductive RefKind
  | cloudinary
  | gridfs
  | localPath
deriving DecidableEq

/-- The worker's dispatch on the photo reference (the `if`/`elif`/`else`
chain of `process_worker`). -/
def classifyFileReference (p : String) : RefKind :=
  if isCloudinaryUrl p then RefKind.cloudinary
  else if isGridFSRef p then RefKind.gridfs
  else RefKind.localPath

/-- Modelled from the spec: a 24-character token all of whose characters are
lowercase hexadecimal digits (no case folding). -/
def specIsLowerHex24 (p : String) : Bool :=
  p.toList.length == 24 && p.toList.all (fun c => hexDigitsLower.contains c)

/-- Modelled from the spec: a remote URL containing the known object-storage
domain, stated as an explicit decomposition. -/
def ClaimCloudinary (p : String) : Prop :=
  startsWithList p.toList ("http".toList) = true ∧
  ∃ l r, p.toList = l ++ ("cloudinary.com".toList) ++ r

/-- The GridFS branch condition restated with quantifiers (case-insensitive,
as the code has it). -/
def ClaimHexTokenCI (p : String) : Prop :=
  p.toList.length = 24 ∧ ∀ c ∈ p.toList, Char.toLower c ∈ hexDigitsLower

/-! ## Worker loop (app.py, process_worker) -/

/-- A job's delivered result: the `('success', faces)` / `('error', msg)`
pair put on the per-request result queue. -/
inductive JobMessage (β : Type)
  | success (faces : List β)
  | error (msg : String)
deriving DecidableEq

/-- Collaborator outcomes for one job: the network fetch
(`requests.get` + `raise_for_status`), the decode (`cv2.imdecode` returning
a real image rather than `None`), the embedding backend
(`processor.detect_faces`), and the local-file path
(`processor.process_image_file`). -/
structure JobEnv (β : Type) where
  fetch : Except String Unit
  decodeOk : Bool
  detect : Except String (List β)
  processFile : Except String (List β)

/-- One iteration of `process_worker`'s per-job body: dispatch on the
reference kind; every failure inside a branch is caught there and becomes an
error message put on the result queue; a completed branch puts
`('success', faces)`. -/
def process_one_job {β : Type} (env : JobEnv β) (photo_path : String) : JobMessage β :=
  match classifyFileReference photo_path with
  | RefKind.cloudinary =>
    match env.fetch with
    | Except.error e => JobMessage.error ("Cloudinary processing error: " ++ e)
    | Except.ok _ =>
      if env.decodeOk then
        match env.detect with
        | Except.ok fs => JobMessage.success fs
        | Except.error e => JobMessage.error ("Cloudinary processing error: " ++ e)
      else
        JobMessage.error ("Cloudinary processing error: Could not decode Cloudinary image")
  | RefKind.gridfs =>
    match env.fetch with
    | Except.error e => JobMessage.error ("GridFS processing error: " ++ e)
    | Except.ok _ =>
      if env.decodeOk then
        match env.detect with
        | Except.ok fs => JobMessage.success fs
        | Except.error e => JobMessage.error ("GridFS processing error: " ++ e)
      else
        JobMessage.error ("GridFS processing error: Could not decode GridFS image")
  | RefKind.localPath =>
    match env.processFile with
    | Except.ok fs => JobMessage.success fs
    | Except.error e => JobMessage.error ("File processing error: " ++ e)

/-- The worker loop over a list of queued jobs: each job is processed in
turn and yields exactly one delivered message. -/
def process_worker_jobs {β : Type} (jobs : List (String × JobEnv β)) : List (JobMessage β) :=
  jobs.map (fun j => process_one_job j.2 j.1)

/-! ## The /process-photo endpoint (app.py) -/

/-- `MAX_WORKERS = 24`. -/
def MAX_WORKERS : ℕ := 24

/-- `queue.Queue(maxsize=128)`. -/
def QUEUE_MAXSIZE : ℕ := 128

/-- The soft overload threshold in `if app.processing_queue.qsize() > 100`. -/
def OVERLOAD_THRESHOLD : ℕ := 100

/-- `app.processing_queue.put((photo_path, result_queue), timeout=5)`. -/
def ENQUEUE_TIMEOUT_SECONDS : ℕ := 5

/-- `result_queue.get(timeout=120)`. -/
def RESULT_TIMEOUT_SECONDS : ℕ := 120

/-- Outcome of the bounded enqueue: completed, or `queue.Full` after the
5-second timeout. -/
inductive EnqueueOutcome
  | ok
  | full
deriving DecidableEq

/-- Outcome of waiting on the result queue: a delivered message, or
`queue.Empty` after the 120-second timeout. -/
inductive AwaitOutcome (β : Type)
  | result (msg : JobMessage β)
  | timedOut
deriving DecidableEq

/-- The JSON/HTTP responses `/process-photo` can produce. -/
inductive PhotoResponse (β : Type)
  | success (faces : List β)
  | missingField
  | overloaded
  | processingFailed (msg : String)
  | timedOut
deriving DecidableEq

/-- The HTTP status code attached to each `/process-photo` response. -/
def photoHttpStatus {β : Type} : PhotoResponse β → ℕ
  | PhotoResponse.success _ => 200
  | PhotoResponse.missingField => 400
  | PhotoResponse.overloaded => 503
  | PhotoResponse.processingFailed _ => 500
  | PhotoResponse.timedOut => 504

/-- The `/process-photo` handler: check the queue depth against the soft
threshold before anything else, then read the reference field, then enqueue
(bounded, may time out full), then await the result (may time out empty).
The second component records whether an enqueue was attempted. -/
def process_photo {β : Type} (queueSize : ℕ) (fileReference : Option String)
    (enq : EnqueueOutcome) (aw : AwaitOutcome β) : PhotoResponse β × Bool :=
  if OVERLOAD_THRESHOLD < queueSize then
    (PhotoResponse.overloaded, false)
  else
    match fileReference with
    | none => (PhotoResponse.missingField, false)
    | some _ =>
      match enq with
      | EnqueueOutcome.full => (PhotoResponse.overloaded, true)
      | EnqueueOutcome.ok =>
        match aw with
        | AwaitOutcome.timedOut => (PhotoResponse.timedOut, true)
        | AwaitOutcome.result (JobMessage.success fs) => (PhotoResponse.success fs, true)
        | AwaitOutcome.result (JobMessage.error m) => (PhotoResponse.processingFailed m, true)

/-! ## The /compare-faces endpoint (app.py) -/

/-- The responses `/compare-faces` can produce. -/
inductive CompareResponse
  | badRequest (msg : String)
  | serverError (msg : String)
  | ok (ms : List (String × ℝ))

/-- Insert a match in front of the first entry with a similarity not above
its own: the effect one element has under a stable descending sort. -/
noncomputable def insertByDesc (m : String × ℝ) : List (String × ℝ) → List (String × ℝ)
  | [] => [m]
  | x :: xs => if x.2 ≤ m.2 then m :: x :: xs else x :: insertByDesc m xs

/-- Stable sort by similarity, descending:
`matches.sort(key=lambda x: x['similarity'], reverse=True)` (Python's sort
is stable, so ties keep their input order). -/
noncomputable def sortBySimilarityDesc : List (String × ℝ) → List (String × ℝ)
  | [] => []
  | m :: rest => insertByDesc m (sortBySimilarityDesc rest)

/-- Whether `np.array` on the list of candidate embeddings forms a proper
2-D array (all rows of one length); a ragged list raises. -/
def allSameLength (ls : List (List ℝ)) : Bool :=
  match ls with
  | [] => true
  | l :: rest => rest.all (fun x => x.length == l.length)

/-- The pre-sort matches list: `photoId` of each input embedding zipped with
its similarity score, in input order. -/
noncomputable def similarityMatches (st : CalcState) (ce : CallEnv) (q : List ℝ)
    (embs : List (String × List ℝ)) : List (String × ℝ) :=
  List.zip (embs.map Prod.fst) (cosine_similarity_batch st ce q (embs.map Prod.snd))

/-- The `/compare-faces` handler: validate the two fields, decode the
selfie, detect faces (the collaborator's output is the `faces` parameter),
take the first face's embedding, batch-compute similarities, pair them with
the photo ids and sort descending. -/
noncomputable def compare_faces (st : CalcState) (ce : CallEnv) (selfiePresent : Bool)
    (decodeOk : Bool) (faces : List (List ℝ)) (embs : List (String × List ℝ)) :
    CompareResponse :=
  if !selfiePresent || embs.isEmpty then
    CompareResponse.badRequest "selfieData and embeddings are required"
  else if !decodeOk then
    CompareResponse.serverError "image decoding failed"
  else if faces.isEmpty then
    CompareResponse.badRequest "No face detected in selfie"
  else if !(allSameLength (embs.map Prod.snd)) then
    CompareResponse.serverError "ragged embeddings array"
  else
    CompareResponse.ok (sortBySimilarityDesc (similarityMatches st ce (faces.headD []) embs))

/-! ## Dynamic batch processor (dynamic_batch_processor.py) -/

/-- Python-dict insertion into an association list: overwrite an existing
key in place, else append at the end. -/
def dictInsert {α : Type} (k : String) (v : α) : List (String × α) → List (String × α)
  | [] => [(k, v)]
  | (k', v') :: rest => if k' = k then (k, v) :: rest else (k', v') :: dictInsert k v rest

/-- `DynamicBatchProcessor._worker_task` draining the shared queue: each
claimed path is processed (`proc p = some faces`) and its result stored
under the results lock with the completed counter incremented, or raises
(`proc p = none`), in which case only the counter is incremented and no
entry is written.  The final `(results, completed_count)` state is the same
under every interleaving of the worker pool, because claims are atomic and
each path's entry is written under the lock, so the drain is modelled as one
pass over the queue. -/
def workerDrain {β : Type} (proc : String → Option (List β)) :
    List String → List (String × List β) → ℕ → List (String × List β) × ℕ
  | [], res, done => (res, done)
  | p :: rest, res, done =>
    match proc p with
    | some fs => workerDrain proc rest (dictInsert p fs res) (done + 1)
    | none => workerDrain proc rest res (done + 1)

/-- Helper for `_process_sequential`: fold over the paths, recording the
faces on success and an empty list on failure. -/
def processSequentialAux {β : Type} (proc : String → Option (List β)) :
    List String → List (String × List β) → List (String × List β)
  | [], res => res
  | p :: rest, res =>
    match proc p with
    | some fs => processSequentialAux proc rest (dictInsert p fs res)
    | none => processSequentialAux proc rest (dictInsert p [] res)

/-- `DynamicBatchProcessor._process_sequential`. -/
def process_sequential {β : Type} (proc : String → Option (List β)) (paths : List String) :
    List (String × List β) :=
  processSequentialAux proc paths []

/-- `DynamicBatchProcessor.process_dynamic_batch`: sequential fallback when
no GPU is available, else the concurrent drain's results mapping. -/
def process_dynamic_batch {β : Type} (gpuAvailable : Bool) (proc : String → Option (List β))
    (image_paths : List String) : List (String × List β) :=
  if !gpuAvailable then
    process_sequential proc image_paths
  else
    (workerDrain proc image_paths [] 0).1

/-! ## Numeric helper lemmas -/

theorem sumSq_nonneg (v : List ℝ) : 0 ≤ sumSq v := by
  induction v with
  | nil => simp [sumSq]
  | cons x xs ih =>
    simp only [sumSq, List.map_cons, List.sum_cons] at ih ⊢
    exact add_nonneg (mul_self_nonneg x) ih

theorem sumSq_pos {v : List ℝ} (h : ∃ x ∈ v, x ≠ 0) : 0 < sumSq v := by
  induction v with
  | nil => simp at h
  | cons x xs ih =>
    simp only [sumSq, List.map_cons, List.sum_cons]
    rcases h with ⟨y, hy, hy0⟩
    rcases List.mem_cons.mp hy with rfl | hmem
    · exact add_pos_of_pos_of_nonneg (mul_self_pos.mpr hy0) (sumSq_nonneg xs)
    · exact add_pos_of_nonneg_of_pos (mul_self_nonneg x) (ih ⟨y, hmem, hy0⟩)

theorem dotList_self (v : List ℝ) : dotList v v = sumSq v := by
  induction v with
  | nil => simp [dotList, sumSq]
  | cons x xs ih =>
    simp only [dotList, sumSq, List.zipWith_cons_cons, List.map_cons, List.sum_cons] at ih ⊢
    rw [ih]

theorem norm2_mul_self (v : List ℝ) : norm2 v * norm2 v = sumSq v :=
  Real.mul_self_sqrt (sumSq_nonneg v)

theorem norm2_nonneg (v : List ℝ) : 0 ≤ norm2 v :=
  Real.sqrt_nonneg _

theorem zipWith_map_same {α β γ δ : Type} (g : β → γ → δ) (f1 : α → β) (f2 : α → γ)
    (l : List α) :
    List.zipWith g (l.map f1) (l.map f2) = l.map (fun c => g (f1 c) (f2 c)) := by
  induction l with
  | nil => rfl
  | cons c cs ih => simp [ih]

theorem numpy_eq_spec {q : List ℝ} {cs : List (List ℝ)} (h : dimsMatch q cs = true) :
    numpy_cosine_similarity q cs = specCosineSimilarityBatch q cs := by
  rw [numpy_cosine_similarity, if_pos h, zipWith_map_same]
  rfl

theorem numpy_mismatch {q : List ℝ} {cs : List (List ℝ)} (h : dimsMatch q cs = false) :
    numpy_cosine_similarity q cs = List.replicate cs.length 0 := by
  rw [numpy_cosine_similarity, if_neg]
  simp [h]

theorem spec_length (q : List ℝ) (cs : List (List ℝ)) :
    (specCosineSimilarityBatch q cs).length = cs.length := by
  simp [specCosineSimilarityBatch]

theorem spec_getD (q : List ℝ) (cs : List (List ℝ)) (i : ℕ) (h : i < cs.length) :
    (specCosineSimilarityBatch q cs).getD i 0 =
      dotList q (cs.getD i []) / (norm2 q * norm2 (cs.getD i [])) := by
  induction cs generalizing i with
  | nil => simp at h
  | cons c cs ih =>
    cases i with
    | zero => simp [specCosineSimilarityBatch]
    | succ n =>
      simp only [specCosineSimilarityBatch, List.map_cons, List.getD_cons_succ]
      exact ih n (by simpa using h)

theorem batch_numpy_device (st : CalcState) (ce : CallEnv) (q : List ℝ) (cs : List (List ℝ))
    (hdev : st.device = Device.numpy) :
    cosine_similarity_batch st ce q cs = numpy_cosine_similarity q cs := by
  rw [cosine_similarity_batch, if_neg, if_neg]
  · rintro ⟨h, -⟩
    rw [hdev] at h
    exact absurd h (by intro hc; cases hc)
  · rintro ⟨h, -⟩
    rw [hdev] at h
    exact absurd h (by intro hc; cases hc)

/-! ## C1 -/

/-- C1: for every query vector and candidate matrix whose rows match the
query's dimension (including the empty matrix), the batched similarity of
the NumPy-backed calculator has exactly one score per candidate, in order,
with `result[i] = dot(query, candidates[i]) / (‖query‖ · ‖candidates[i]‖)`;
for zero candidates the result is empty. -/
theorem c1_cosine_similarity_batch (st : CalcState) (ce : CallEnv) (q : List ℝ)
    (cs : List (List ℝ)) (hdev : st.device = Device.numpy) (hwf : dimsMatch q cs = true) :
    cosine_similarity_batch st ce q cs = specCosineSimilarityBatch q cs ∧
    (cosine_similarity_batch st ce q cs).length = cs.length ∧
    (∀ i, i < cs.length →
      (cosine_similarity_batch st ce q cs).getD i 0 =
        dotList q (cs.getD i []) / (norm2 q * norm2 (cs.getD i []))) ∧
    (cs = [] → cosine_similarity_batch st ce q cs = []) := by
  rw [batch_numpy_device st ce q cs hdev, numpy_eq_spec hwf]
  refine ⟨rfl, spec_length q cs, fun i hi => spec_getD q cs i hi, ?_⟩
  rintro rfl
  rfl

/-- Witness for C1 at a concrete input. -/
theorem c1_witness :
    cosine_similarity_batch numpyCalc quietCall [1, 0] [[0, 1]] =
      specCosineSimilarityBatch [1, 0] [[0, 1]] ∧
    (cosine_similarity_batch numpyCalc quietCall [1, 0] [[0, 1]]).length = 1 ∧
    (∀ i, i < 1 →
      (cosine_similarity_batch numpyCalc quietCall [1, 0] [[0, 1]]).getD i 0 =
        dotList [1, 0] ([[0, 1]].getD i []) /
          (norm2 [1, 0] * norm2 ([[0, 1]].getD i []))) ∧
    (([[0, 1]] : List (List ℝ)) = [] →
      cosine_similarity_batch numpyCalc quietCall [1, 0] [[0, 1]] = []) :=
  c1_cosine_similarity_batch numpyCalc quietCall [1, 0] [[0, 1]] rfl (by rfl)

/-! ## C10 -/

/-- C10: when the candidate rows do not match the query's dimension (the
case in which the NumPy computation raises), the batch call neither raises
nor reports anything: it returns a vector of zeros of the candidate count,
equal to what a genuine all-zero-similarity input produces. -/
theorem c10_mismatch_returns_zeros (st : CalcState) (ce : CallEnv) (q : List ℝ)
    (cs : List (List ℝ)) (hdev : st.device = Device.numpy) (hwf : dimsMatch q cs = false) :
    numpy_cosine_similarity q cs = List.replicate cs.length 0 ∧
    cosine_similarity_batch st ce q cs = List.replicate cs.length 0 ∧
    ∃ q2 cs2, dimsMatch q2 cs2 = true ∧ cs2.length = cs.length ∧
      numpy_cosine_similarity q2 cs2 = numpy_cosine_similarity q cs := by
  have hz : numpy_cosine_similarity q cs = List.replicate cs.length 0 := numpy_mismatch hwf
  refine ⟨hz, by rw [batch_numpy_device st ce q cs hdev, hz], ?_⟩
  refine ⟨[1, 0], List.replicate cs.length [0, 1], ?_, List.length_replicate _ _, ?_⟩
  · simp [dimsMatch, List.all_eq_true, List.mem_replicate]
  · have hwf2 : dimsMatch [1, 0] (List.replicate cs.length [0, 1]) = true := by
      simp [dimsMatch, List.all_eq_true, List.mem_replicate]
    rw [numpy_eq_spec hwf2, hz, specCosineSimilarityBatch, List.map_replicate]
    have : dotList [1, 0] [0, 1] = 0 := by
      simp [dotList]
    rw [this, zero_div]

/-- Witness for C10 at a concrete mismatched input. -/
theorem c10_witness :
    numpy_cosine_similarity [1] [[1, 2]] = List.replicate 1 0 ∧
    cosine_similarity_batch numpyCalc quietCall [1] [[1, 2]] = List.replicate 1 0 ∧
    ∃ q2 cs2, dimsMatch q2 cs2 = true ∧ cs2.length = 1 ∧
      numpy_cosine_similarity q2 cs2 = numpy_cosine_similarity [1] [[1, 2]] := by
  have h := c10_mismatch_returns_zeros numpyCalc quietCall [1] [[1, 2]] rfl (by rfl)
  simpa using h

/-! ## C8: algebraic properties of the similarity scores -/

theorem sumSq_map_mul (a : ℝ) (v : List ℝ) :
    sumSq (v.map (fun x => a * x)) = a * a * sumSq v := by
  induction v with
  | nil => simp [sumSq]
  | cons x xs ih =>
    simp only [sumSq, List.map_cons, List.sum_cons] at ih ⊢
    rw [ih]
    ring

theorem norm2_map_mul {a : ℝ} (ha : 0 ≤ a) (v : List ℝ) :
    norm2 (v.map (fun x => a * x)) = a * norm2 v := by
  rw [norm2, norm2, sumSq_map_mul, Real.sqrt_mul (mul_self_nonneg a),
    Real.sqrt_mul_self ha]

theorem dotList_map_mul_right (a : ℝ) (q v : List ℝ) :
    dotList q (v.map (fun x => a * x)) = a * dotList q v := by
  induction q generalizing v with
  | nil => simp [dotList]
  | cons x xs ih =>
    cases v with
    | nil => simp [dotList]
    | cons y ys =>
      simp only [dotList, List.map_cons, List.zipWith_cons_cons, List.sum_cons] at ih ⊢
      rw [ih ys]
      ring

theorem spec_self_similarity {q : List ℝ} (hq : ∃ x ∈ q, x ≠ 0) :
    dotList q q / (norm2 q * norm2 q) = 1 := by
  rw [dotList_self, norm2_mul_self]
  exact div_self (ne_of_gt (sumSq_pos hq))

theorem simScore_map_mul {a : ℝ} (ha : 0 < a) (q c : List ℝ) :
    dotList q (c.map (fun x => a * x)) / (norm2 q * norm2 (c.map (fun x => a * x))) =
      dotList q c / (norm2 q * norm2 c) := by
  rw [dotList_map_mul_right, norm2_map_mul (le_of_lt ha),
    show norm2 q * (a * norm2 c) = a * (norm2 q * norm2 c) by ring]
  exact mul_div_mul_left _ _ (ne_of_gt ha)

theorem dimsMatch_set_map (q : List ℝ) (cs : List (List ℝ)) (i : ℕ) (f : ℝ → ℝ) :
    dimsMatch q (cs.set i ((cs.getD i []).map f)) = dimsMatch q cs := by
  induction cs generalizing i with
  | nil => rfl
  | cons c cs ih =>
    cases i with
    | zero =>
      simp [dimsMatch, List.all_cons]
    | succ n =>
      simp only [List.set_cons_succ, List.getD_cons_succ, dimsMatch, List.all_cons]
      have h := ih n
      simp only [dimsMatch] at h
      rw [h]

theorem spec_set_scaled {a : ℝ} (ha : 0 < a) (q : List ℝ) (cs : List (List ℝ)) (i : ℕ) :
    specCosineSimilarityBatch q (cs.set i ((cs.getD i []).map (fun x => a * x))) =
      specCosineSimilarityBatch q cs := by
  induction cs generalizing i with
  | nil => rfl
  | cons c cs ih =>
    cases i with
    | zero =>
      simp only [List.getD_cons_zero, List.set_cons_zero, specCosineSimilarityBatch,
        List.map_cons]
      rw [simScore_map_mul ha]
    | succ n =>
      simp only [List.getD_cons_succ, List.set_cons_succ, specCosineSimilarityBatch,
        List.map_cons]
      have h := ih n
      simp only [specCosineSimilarityBatch] at h
      rw [h]

theorem numpy_set_scaled {a : ℝ} (ha : 0 < a) (q : List ℝ) (cs : List (List ℝ)) (i : ℕ) :
    numpy_cosine_similarity q (cs.set i ((cs.getD i []).map (fun x => a * x))) =
      numpy_cosine_similarity q cs := by
  by_cases h : dimsMatch q cs = true
  · rw [numpy_eq_spec (by rw [dimsMatch_set_map]; exact h), numpy_eq_spec h,
      spec_set_scaled ha]
  · have h' : dimsMatch q cs = false := by simpa using h
    rw [numpy_mismatch h', numpy_mismatch (by rw [dimsMatch_set_map]; exact h'),
      List.length_set]

/-- C8: on the NumPy-backed calculator, a nonzero query compared against
itself as the single candidate scores exactly 1, and scaling any one
candidate row by a positive scalar leaves the batch of scores unchanged. -/
theorem c8_self_one_and_scale_invariant (st : CalcState) (ce : CallEnv) (q : List ℝ)
    (cs : List (List ℝ)) (i : ℕ) (a : ℝ) (hdev : st.device = Device.numpy)
    (hq : ∃ x ∈ q, x ≠ 0) (ha : 0 < a) :
    cosine_similarity_batch st ce q [q] = [1] ∧
    cosine_similarity_batch st ce q (cs.set i ((cs.getD i []).map (fun x => a * x))) =
      cosine_similarity_batch st ce q cs := by
  constructor
  · rw [batch_numpy_device st ce q [q] hdev,
      numpy_eq_spec (show dimsMatch q [q] = true by simp [dimsMatch]),
      specCosineSimilarityBatch]
    simp only [List.map_cons, List.map_nil]
    rw [spec_self_similarity hq]
  · rw [batch_numpy_device st ce q _ hdev, batch_numpy_device st ce q cs hdev,
      numpy_set_scaled ha]

/-- Witness for C8 at a concrete input. -/
theorem c8_witness :
    cosine_similarity_batch numpyCalc quietCall [1, 0] [[1, 0]] = [1] ∧
    cosine_similarity_batch numpyCalc quietCall [1, 0]
        ([[5]].set 0 (([[5]].getD 0 []).map (fun x => 2 * x))) =
      cosine_similarity_batch numpyCalc quietCall [1, 0] [[5]] :=
  c8_self_one_and_scale_invariant numpyCalc quietCall [1, 0] [[5]] 0 2 rfl
    ⟨1, by simp, one_ne_zero⟩ (by norm_num)

/-! ## C3: per-call fallback to the NumPy path -/

/-- C3: whichever backend was selected, if the accelerated computation
raises during the call, the call still returns exactly the NumPy path's
result instead of propagating the exception; the fallback is decided per
call from that call's environment. -/
theorem c3_backend_failure_falls_back (st : CalcState) (ce : CallEnv) (q : List ℝ)
    (cs : List (List ℝ)) (hc : ce.cupyRaises = true) (ht : ce.torchRaises = true) :
    cupy_cosine_similarity ce q cs = numpy_cosine_similarity q cs ∧
    torch_cosine_similarity ce q cs = numpy_cosine_similarity q cs ∧
    cosine_similarity_batch st ce q cs = numpy_cosine_similarity q cs := by
  have h1 : cupy_cosine_similarity ce q cs = numpy_cosine_similarity q cs := by
    rw [cupy_cosine_similarity, if_pos hc]
  have h2 : torch_cosine_similarity ce q cs = numpy_cosine_similarity q cs := by
    rw [torch_cosine_similarity, if_pos ht]
  refine ⟨h1, h2, ?_⟩
  rw [cosine_similarity_batch]
  split_ifs with hA hB
  · exact h1
  · exact h2
  · rfl

/-- Witness for C3 at a concrete input. -/
theorem c3_witness :
    cupy_cosine_similarity failingCall [1] [[1]] = numpy_cosine_similarity [1] [[1]] ∧
    torch_cosine_similarity failingCall [1] [[1]] = numpy_cosine_similarity [1] [[1]] ∧
    cosine_similarity_batch numpyCalc failingCall [1] [[1]] =
      numpy_cosine_similarity [1] [[1]] :=
  c3_backend_failure_falls_back numpyCalc failingCall [1] [[1]] rfl rfl

/-! ## C9: construction-time backend probing -/

/-- Environment in which only torch imported and `torch.cuda.is_available()`
raises: the unguarded second call in `_get_best_device` propagates. -/
def torchRaisingEnv : BackendEnv :=
  ⟨false, true, true, TorchCudaOutcome.raised⟩

/-- Counterexample to C9: with CuPy not importable, torch importable and the
CUDA availability call raising, the probing in `_check_gpu_availability`
catches the exception, but `_get_best_device` repeats the call with no
guard, so construction raises instead of falling back to NumPy. -/
theorem c9_counterexample :
    initCalculator torchRaisingEnv = Except.error () := rfl

/-- C9 (amended): probing exceptions inside the availability check are
caught and treated as that backend being unavailable, and selection follows
the fixed priority CuPy, torch, NumPy with NumPy as terminal fallback —
provided the torch-availability query repeated during device selection does
not itself raise (otherwise construction fails, as the counterexample
shows). -/
theorem c9_probe_order_and_fallback (e : BackendEnv)
    (h : e.torchCudaIsAvailable ≠ TorchCudaOutcome.raised ∨
      (e.cupyAvailable = true ∧ e.cupyProbeOk = true) ∨ e.torchAvailable = false) :
    ∃ st, initCalculator e = Except.ok st ∧
      st.device =
        (if e.cupyAvailable = true ∧ e.cupyProbeOk = true then Device.cupy
         else if e.torchAvailable = true ∧ e.torchCudaIsAvailable = TorchCudaOutcome.avail then
           Device.torch
         else Device.numpy) := by
  obtain ⟨ca, ta, cp, tc⟩ := e
  cases ca <;> cases ta <;> cases cp <;> cases tc <;>
    simp_all [initCalculator, check_gpu_availability, get_best_device]

/-- Witness for C9 (amended) at a concrete environment. -/
theorem c9_witness :
    ∃ st, initCalculator cpuEnv = Except.ok st ∧
      st.device =
        (if cpuEnv.cupyAvailable = true ∧ cpuEnv.cupyProbeOk = true then Device.cupy
         else if cpuEnv.torchAvailable = true ∧
             cpuEnv.torchCudaIsAvailable = TorchCudaOutcome.avail then
           Device.torch
         else Device.numpy) :=
  c9_probe_order_and_fallback cpuEnv (Or.inl (by simp [cpuEnv]))

/-! ## C6: file-reference classification -/

theorem startsWithList_iff (s pat : List Char) :
    startsWithList s pat = true ↔ ∃ r, s = pat ++ r := by
  induction pat generalizing s with
  | nil =>
    simp [startsWithList]
  | cons b bs ih =>
    cases s with
    | nil =>
      simp [startsWithList]
    | cons a as =>
      simp only [startsWithList, Bool.and_eq_true, beq_iff_eq, ih, List.cons_append]
      constructor
      · rintro ⟨rfl, r, rfl⟩
        exact ⟨r, rfl⟩
      · rintro ⟨r, h⟩
        cases h
        exact ⟨rfl, r, rfl⟩

theorem hasSubstrList_iff (s pat : List Char) :
    hasSubstrList s pat = true ↔ ∃ l r, s = l ++ pat ++ r := by
  induction s with
  | nil =>
    simp only [hasSubstrList, List.isEmpty_iff]
    constructor
    · rintro rfl
      exact ⟨[], [], rfl⟩
    · rintro ⟨l, r, h⟩
      rcases List.append_eq_nil.mp (List.append_eq_nil.mp h.symm).1 with ⟨-, h2⟩
      exact h2
  | cons a s ih =>
    simp only [hasSubstrList, Bool.or_eq_true, startsWithList_iff, ih]
    constructor
    · rintro (⟨r, h⟩ | ⟨l, r, h⟩)
      · exact ⟨[], r, by simpa using h⟩
      · exact ⟨a :: l, r, by simp [h]⟩
    · rintro ⟨l, r, h⟩
      cases l with
      | nil => exact Or.inl ⟨r, by simpa using h⟩
      | cons x xs =>
        simp only [List.cons_append, List.cons.injEq] at h
        exact Or.inr ⟨xs, r, h.2⟩

theorem isCloudinaryUrl_iff (p : String) : isCloudinaryUrl p = true ↔ ClaimCloudinary p := by
  rw [isCloudinaryUrl, Bool.and_eq_true, ClaimCloudinary, hasSubstrList_iff]

theorem isGridFSRef_iff (p : String) : isGridFSRef p = true ↔ ClaimHexTokenCI p := by
  rw [isGridFSRef, Bool.and_eq_true, ClaimHexTokenCI, Nat.beq_eq_true_eq]
  constructor
  · rintro ⟨h1, h2⟩
    refine ⟨h1, fun c hc => ?_⟩
    have := List.all_eq_true.mp h2 (Char.toLower c) (List.mem_map_of_mem Char.toLower hc)
    simpa [List.elem_iff] using this
  · rintro ⟨h1, h2⟩
    refine ⟨h1, List.all_eq_true.mpr fun c hc => ?_⟩
    rcases List.mem_map.mp hc with ⟨d, hd, rfl⟩
    simpa [List.elem_iff] using h2 d hd

/-- Counterexample to C6: a 24-character token containing an uppercase
hexadecimal digit is not a lowercase-hex token, yet the worker sends it to
the image-lookup service (it lowercases before testing) instead of treating
it as a local path. -/
theorem c6_counterexample :
    isCloudinaryUrl "A23456789abcdef012345678" = false ∧
    specIsLowerHex24 "A23456789abcdef012345678" = false ∧
    classifyFileReference "A23456789abcdef012345678" = RefKind.gridfs ∧
    classifyFileReference "A23456789abcdef012345678" ≠ RefKind.localPath := by
  refine ⟨by decide, by decide, by decide, by decide⟩

/-- C6 (amended): the worker fetches a reference that starts with `http`
and contains the object-storage domain over the network; otherwise a
24-character token of hexadecimal digits in either case (the code lowercases
before testing) goes to the local image-lookup service; every other string
is treated as a local filesystem path. -/
theorem c6_reference_dispatch (p : String) :
    (classifyFileReference p = RefKind.cloudinary ↔ ClaimCloudinary p) ∧
    (classifyFileReference p = RefKind.gridfs ↔ ¬ClaimCloudinary p ∧ ClaimHexTokenCI p) ∧
    (classifyFileReference p = RefKind.localPath ↔ ¬ClaimCloudinary p ∧ ¬ClaimHexTokenCI p) := by
  have hcw : isCloudinaryUrl p = true ↔ ClaimCloudinary p := isCloudinaryUrl_iff p
  have hgw : isGridFSRef p = true ↔ ClaimHexTokenCI p := isGridFSRef_iff p
  unfold classifyFileReference
  by_cases hc : isCloudinaryUrl p = true
  · rw [if_pos hc]
    have hcp := hcw.mp hc
    exact ⟨by simp [hcp], by simp [hcp], by simp [hcp]⟩
  · have hnc : ¬ClaimCloudinary p := fun h => hc (hcw.mpr h)
    rw [if_neg hc]
    by_cases hg : isGridFSRef p = true
    · rw [if_pos hg]
      have hgt := hgw.mp hg
      exact ⟨by simp [hnc], by simp [hnc, hgt], by simp [hgt]⟩
    · have hng : ¬ClaimHexTokenCI p := fun h => hg (hgw.mpr h)
      rw [if_neg hg]
      exact ⟨by simp [hnc], by simp [hng], by simp [hnc, hng]⟩

/-! ## C5: the worker captures every per-job failure -/

/-- C5: the worker loop yields exactly one delivered message per job, and
every failure during fetch, decode or embedding-backend invocation (for the
two remote kinds) or during local-file processing (for the local kind) is
delivered as an error message on the job's result channel rather than
raised, so the worker continues with the remaining jobs. -/
theorem c5_worker_captures_failures {β : Type} (jobs : List (String × JobEnv β))
    (p : String) (env : JobEnv β) :
    (process_worker_jobs jobs).length = jobs.length ∧
    (classifyFileReference p ≠ RefKind.localPath →
      ((∃ e, env.fetch = Except.error e) ∨ env.decodeOk = false ∨
        (∃ e, env.detect = Except.error e)) →
      ∃ m, process_one_job env p = JobMessage.error m) ∧
    (∀ e, classifyFileReference p = RefKind.localPath →
      env.processFile = Except.error e →
      process_one_job env p = JobMessage.error ("File processing error: " ++ e)) := by
  refine ⟨by simp [process_worker_jobs], ?_, ?_⟩
  · intro hk hfail
    rw [process_one_job]
    cases hcl : classifyFileReference p with
    | localPath => exact absurd hcl hk
    | cloudinary =>
      cases hfe : env.fetch with
      | error e => exact ⟨_, rfl⟩
      | ok u =>
        rcases hfail with ⟨e, hf⟩ | hd | ⟨e, hd⟩
        · rw [hfe] at hf
          cases hf
        · rw [hd]
          exact ⟨_, rfl⟩
        · cases hdec : env.decodeOk with
          | false => exact ⟨_, rfl⟩
          | true =>
            simp only [if_pos rfl, hd]
            exact ⟨_, rfl⟩
    | gridfs =>
      cases hfe : env.fetch with
      | error e => exact ⟨_, rfl⟩
      | ok u =>
        rcases hfail with ⟨e, hf⟩ | hd | ⟨e, hd⟩
        · rw [hfe] at hf
          cases hf
        · rw [hd]
          exact ⟨_, rfl⟩
        · cases hdec : env.decodeOk with
          | false => exact ⟨_, rfl⟩
          | true =>
            simp only [if_pos rfl, hd]
            exact ⟨_, rfl⟩
  · intro e hcl hpf
    rw [process_one_job, hcl, hpf]

/-! ## C4: overload and timeout signalling in /process-photo -/

/-- C4: a queue depth strictly above the soft threshold 100 (itself strictly
below the hard capacity 128) is rejected with the overloaded signal (503)
before any enqueue is attempted; an enqueue that times out full (after the
5-second bound) yields the same overloaded signal; and an await that times
out (after the 120-second bound) yields the timeout signal (504). -/
theorem c4_overload_and_timeouts {β : Type} (queueSize : ℕ) (fileReference : Option String)
    (aw : AwaitOutcome β) (ref : String) :
    (OVERLOAD_THRESHOLD < queueSize →
      ∀ enq : EnqueueOutcome,
        process_photo queueSize fileReference enq aw = (PhotoResponse.overloaded, false)) ∧
    (queueSize ≤ OVERLOAD_THRESHOLD →
      process_photo queueSize (some ref) EnqueueOutcome.full aw =
        (PhotoResponse.overloaded, true)) ∧
    (queueSize ≤ OVERLOAD_THRESHOLD →
      process_photo queueSize (some ref) EnqueueOutcome.ok
          (AwaitOutcome.timedOut : AwaitOutcome β) = (PhotoResponse.timedOut, true)) ∧
    photoHttpStatus (PhotoResponse.overloaded : PhotoResponse β) = 503 ∧
    photoHttpStatus (PhotoResponse.timedOut : PhotoResponse β) = 504 ∧
    OVERLOAD_THRESHOLD < QUEUE_MAXSIZE ∧
    ENQUEUE_TIMEOUT_SECONDS = 5 ∧ RESULT_TIMEOUT_SECONDS = 120 := by
  refine ⟨?_, ?_, ?_, rfl, rfl, by decide, rfl, rfl⟩
  · intro h enq
    unfold process_photo
    rw [if_pos h]
  · intro h
    unfold process_photo
    rw [if_neg (not_lt.mpr h)]
  · intro h
    unfold process_photo
    rw [if_neg (not_lt.mpr h)]

/-! ## C2: dynamic batch processing -/

theorem workerDrain_count {β : Type} (proc : String → Option (List β)) (paths : List String)
    (res : List (String × List β)) (done : ℕ) :
    (workerDrain proc paths res done).2 = done + paths.length := by
  induction paths generalizing res done with
  | nil => simp [workerDrain]
  | cons p rest ih =>
    cases hp : proc p with
    | some fs =>
      simp only [workerDrain, hp, ih, List.length_cons]
      omega
    | none =>
      simp only [workerDrain, hp, ih, List.length_cons]
      omega

theorem dictInsert_notMem {α : Type} (k : String) (v : α) (res : List (String × α))
    (h : k ∉ res.map Prod.fst) : dictInsert k v res = res ++ [(k, v)] := by
  induction res with
  | nil => rfl
  | cons x rest ih =>
    obtain ⟨q, w⟩ := x
    simp only [List.map_cons, List.mem_cons] at h
    push_neg at h
    rw [dictInsert, if_neg (fun hq => h.1 hq.symm), ih h.2, List.cons_append]

theorem mem_dictInsert_of_ne {α : Type} {k q : String} (v w : α)
    (res : List (String × α)) (hne : k ≠ q) (hmem : (k, v) ∈ res) :
    (k, v) ∈ dictInsert q w res := by
  induction res with
  | nil => simp at hmem
  | cons x rest ih =>
    obtain ⟨a, b⟩ := x
    rw [dictInsert]
    by_cases h : a = q
    · rw [if_pos h]
      rcases List.mem_cons.mp hmem with heq | hmem'
      · cases heq
        exact absurd h hne
      · exact List.mem_cons_of_mem _ hmem'
    · rw [if_neg h]
      rcases List.mem_cons.mp hmem with heq | hmem'
      · exact heq ▸ List.mem_cons_self _ _
      · exact List.mem_cons_of_mem _ (ih hmem')

theorem workerDrain_keys {β : Type} (proc : String → Option (List β)) (paths : List String)
    (res : List (String × List β)) (done : ℕ) (hnd : paths.Nodup)
    (hdis : ∀ pr ∈ res, pr.1 ∉ paths) :
    ((workerDrain proc paths res done).1).map Prod.fst =
      res.map Prod.fst ++ paths.filter (fun p => (proc p).isSome) := by
  induction paths generalizing res done with
  | nil => simp [workerDrain]
  | cons p rest ih =>
    obtain ⟨hp_nin, hrest⟩ := List.nodup_cons.mp hnd
    have hknotin : p ∉ res.map Prod.fst := by
      intro hmem
      rcases List.mem_map.mp hmem with ⟨pr, hpr, hfst⟩
      exact hdis pr hpr (hfst ▸ List.mem_cons_self p rest)
    cases hp : proc p with
    | some fs =>
      have hdis' : ∀ pr ∈ res ++ [(p, fs)], pr.1 ∉ rest := by
        intro pr hpr
        rcases List.mem_append.mp hpr with hin | hnew
        · intro hmem
          exact hdis pr hin (List.mem_cons_of_mem p hmem)
        · simp only [List.mem_singleton] at hnew
          rw [hnew]
          exact hp_nin
      simp only [workerDrain, hp]
      rw [ih _ _ hrest (by rw [dictInsert_notMem p fs res hknotin]; exact hdis'),
        dictInsert_notMem p fs res hknotin]
      simp [List.filter_cons, hp]
    | none =>
      have hdis' : ∀ pr ∈ res, pr.1 ∉ rest := fun pr hpr hmem =>
        hdis pr hpr (List.mem_cons_of_mem p hmem)
      simp only [workerDrain, hp]
      rw [ih _ _ hrest hdis']
      simp [List.filter_cons, hp]

theorem processSequentialAux_keys {β : Type} (proc : String → Option (List β))
    (paths : List String) (res : List (String × List β)) (hnd : paths.Nodup)
    (hdis : ∀ pr ∈ res, pr.1 ∉ paths) :
    (processSequentialAux proc paths res).map Prod.fst = res.map Prod.fst ++ paths := by
  induction paths generalizing res with
  | nil => simp [processSequentialAux]
  | cons p rest ih =>
    obtain ⟨hp_nin, hrest⟩ := List.nodup_cons.mp hnd
    have hknotin : p ∉ res.map Prod.fst := by
      intro hmem
      rcases List.mem_map.mp hmem with ⟨pr, hpr, hfst⟩
      exact hdis pr hpr (hfst ▸ List.mem_cons_self p rest)
    have hdis' : ∀ (v : List β) (pr : String × List β), pr ∈ res ++ [(p, v)] → pr.1 ∉ rest := by
      intro v pr hpr
      rcases List.mem_append.mp hpr with hin | hnew
      · intro hmem
        exact hdis pr hin (List.mem_cons_of_mem p hmem)
      · simp only [List.mem_singleton] at hnew
        rw [hnew]
        exact hp_nin
    cases hp : proc p with
    | some fs =>
      simp only [processSequentialAux, hp]
      rw [ih _ hrest (by
        rw [dictInsert_notMem p fs res hknotin]
        exact hdis' fs), dictInsert_notMem p fs res hknotin]
      simp
    | none =>
      simp only [processSequentialAux, hp]
      rw [ih _ hrest (by
        rw [dictInsert_notMem p [] res hknotin]
        exact hdis' []), dictInsert_notMem p [] res hknotin]
      simp

theorem processSequentialAux_preserves {β : Type} (proc : String → Option (List β))
    (paths : List String) (res : List (String × List β)) (k : String) (v : List β)
    (hk : k ∉ paths) (hmem : (k, v) ∈ res) :
    (k, v) ∈ processSequentialAux proc paths res := by
  induction paths generalizing res with
  | nil => simpa [processSequentialAux] using hmem
  | cons q rest ih =>
    simp only [List.mem_cons] at hk
    push_neg at hk
    cases hq : proc q with
    | some fs =>
      simp only [processSequentialAux, hq]
      exact ih _ hk.2 (mem_dictInsert_of_ne v fs res hk.1 hmem)
    | none =>
      simp only [processSequentialAux, hq]
      exact ih _ hk.2 (mem_dictInsert_of_ne v [] res hk.1 hmem)

theorem processSequentialAux_mem_of_none {β : Type} (proc : String → Option (List β))
    (paths : List String) (res : List (String × List β)) (p : String) (hp : p ∈ paths)
    (hnone : proc p = none) (hnd : paths.Nodup) :
    (p, ([] : List β)) ∈ processSequentialAux proc paths res := by
  induction paths generalizing res with
  | nil => simp at hp
  | cons q rest ih =>
    obtain ⟨hq_nin, hrest⟩ := List.nodup_cons.mp hnd
    rcases List.mem_cons.mp hp with rfl | hmem
    · simp only [processSequentialAux, hnone]
      refine processSequentialAux_preserves proc rest _ p [] hq_nin ?_
      have : (p, ([] : List β)) ∈ res ++ [(p, [])] := by simp
      by_cases hk : p ∈ res.map Prod.fst
      · clear this
        induction res with
        | nil => simp [dictInsert]
        | cons x rs ihr =>
          obtain ⟨a, b⟩ := x
          rw [dictInsert]
          by_cases haq : a = p
          · rw [if_pos haq]
            exact List.mem_cons_self _ _
          · rw [if_neg haq]
            simp only [List.map_cons, List.mem_cons] at hk
            rcases hk with heq | hk'
            · exact absurd heq.symm haq
            · exact List.mem_cons_of_mem _ (ihr hk')
      · rw [dictInsert_notMem p [] res hk]
        exact this
    · cases hq : proc q with
      | some fs =>
        simp only [processSequentialAux, hq]
        exact ih _ hmem hrest
      | none =>
        simp only [processSequentialAux, hq]
        exact ih _ hmem hrest

/-- Counterexample to C2: on the concurrent (GPU-available) path a failing
item increments the processed counter but records no entry at all, so one
input with a failing processor yields an empty mapping, not one key with an
empty result. -/
theorem c2_counterexample :
    process_dynamic_batch true (fun _ => (none : Option (List ℕ))) ["a"] = [] ∧
    (workerDrain (fun _ => (none : Option (List ℕ))) ["a"] [] 0).2 = 1 ∧
    (["a"] : List String).length = 1 :=
  ⟨rfl, rfl, rfl⟩

/-- C2 (amended): on the sequential (no-accelerator) path the mapping has
exactly one key per (distinct) input, failures included, with an empty
result recorded for a failed item; on the concurrent path every input is
still claimed and counted and no worker stops early, but a failed item gets
no entry, so the mapping's keys are exactly the successfully processed
inputs. -/
theorem c2_batch_mapping (β : Type) (proc : String → Option (List β)) (paths : List String)
    (hnd : paths.Nodup) :
    ((process_dynamic_batch false proc paths).map Prod.fst = paths ∧
      ∀ p ∈ paths, proc p = none →
        (p, ([] : List β)) ∈ process_dynamic_batch false proc paths) ∧
    ((workerDrain proc paths [] 0).2 = paths.length ∧
      (process_dynamic_batch true proc paths).map Prod.fst =
        paths.filter (fun p => (proc p).isSome)) := by
  refine ⟨⟨?_, ?_⟩, ?_, ?_⟩
  · simpa [process_dynamic_batch, process_sequential] using
      processSequentialAux_keys proc paths [] hnd (by simp)
  · intro p hp hnone
    simpa [process_dynamic_batch, process_sequential] using
      processSequentialAux_mem_of_none proc paths [] p hp hnone hnd
  · simpa using workerDrain_count proc paths [] 0
  · simpa [process_dynamic_batch] using workerDrain_keys proc paths [] 0 hnd (by simp)

/-- A concrete processor that fails on the path "a" and succeeds elsewhere. -/
def procFailsOnA : String → Option (List ℕ) :=
  fun p => if p = "a" then none else some []

/-- Witness for C2 (amended) at a concrete input. -/
theorem c2_witness :
    ((process_dynamic_batch false procFailsOnA ["a", "b"]).map Prod.fst = ["a", "b"] ∧
      ∀ p ∈ (["a", "b"] : List String), procFailsOnA p = none →
        (p, ([] : List ℕ)) ∈ process_dynamic_batch false procFailsOnA ["a", "b"]) ∧
    ((workerDrain procFailsOnA ["a", "b"] [] 0).2 = 2 ∧
      (process_dynamic_batch true procFailsOnA ["a", "b"]).map Prod.fst =
        (["a", "b"] : List String).filter (fun p => (procFailsOnA p).isSome)) := by
  have h := c2_batch_mapping ℕ procFailsOnA ["a", "b"] (by decide)
  simpa using h

/-! ## C7: sorting and matching lemmas -/

theorem insertByDesc_perm (m : String × ℝ) (l : List (String × ℝ)) :
    (insertByDesc m l).Perm (m :: l) := by
  induction l with
  | nil => exact List.Perm.refl _
  | cons x xs ih =>
    rw [insertByDesc]
    by_cases h : x.2 ≤ m.2
    · rw [if_pos h]
    · rw [if_neg h]
      exact (ih.cons x).trans (List.Perm.swap m x xs)

theorem insertByDesc_sorted (m : String × ℝ) (l : List (String × ℝ))
    (hl : l.Pairwise (fun a b => b.2 ≤ a.2)) :
    (insertByDesc m l).Pairwise (fun a b => b.2 ≤ a.2) := by
  induction l with
  | nil => simp [insertByDesc]
  | cons x xs ih =>
    rw [insertByDesc]
    rcases List.pairwise_cons.mp hl with ⟨hx, hxs⟩
    by_cases h : x.2 ≤ m.2
    · rw [if_pos h]
      refine List.pairwise_cons.mpr ⟨?_, hl⟩
      intro y hy
      rcases List.mem_cons.mp hy with rfl | hmem
      · exact h
      · exact le_trans (hx y hmem) h
    · rw [if_neg h]
      refine List.pairwise_cons.mpr ⟨?_, ih hxs⟩
      intro y hy
      have hy' := (insertByDesc_perm m xs).mem_iff.mp hy
      rcases List.mem_cons.mp hy' with rfl | hmem
      · exact le_of_lt (not_le.mp h)
      · exact hx y hmem

theorem sortBySimilarityDesc_perm (l : List (String × ℝ)) :
    (sortBySimilarityDesc l).Perm l := by
  induction l with
  | nil => exact List.Perm.refl _
  | cons m rest ih =>
    rw [sortBySimilarityDesc]
    exact (insertByDesc_perm m _).trans (ih.cons m)

theorem sortBySimilarityDesc_sorted (l : List (String × ℝ)) :
    (sortBySimilarityDesc l).Pairwise (fun a b => b.2 ≤ a.2) := by
  induction l with
  | nil => simp [sortBySimilarityDesc]
  | cons m rest ih =>
    rw [sortBySimilarityDesc]
    exact insertByDesc_sorted m _ ih

theorem sorted_head_max {l : List (String × ℝ)} {x : String × ℝ} (d : String × ℝ)
    (hsort : l.Pairwise (fun a b => b.2 ≤ a.2)) (hx : x ∈ l) :
    x.2 ≤ (l.headD d).2 := by
  cases l with
  | nil => simp at hx
  | cons h t =>
    rcases List.mem_cons.mp hx with rfl | hmem
    · simp
    · simpa using (List.pairwise_cons.mp hsort).1 x hmem

theorem headD_mem {α : Type} (l : List α) (d : α) (h : l ≠ []) : l.headD d ∈ l := by
  cases l with
  | nil => exact absurd rfl h
  | cons a t => simp

theorem getD_map_snd (embs : List (String × List ℝ)) (j : ℕ) (h : j < embs.length) :
    (embs.map Prod.snd).getD j [] = (embs.getD j ("", [])).2 := by
  induction embs generalizing j with
  | nil => simp at h
  | cons e rest ih =>
    cases j with
    | zero => simp
    | succ n =>
      simp only [List.map_cons, List.getD_cons_succ]
      exact ih n (by simpa using h)

theorem getD_map_fst (embs : List (String × List ℝ)) (j : ℕ) (h : j < embs.length) :
    (embs.map Prod.fst).getD j "" = (embs.getD j ("", [])).1 := by
  induction embs generalizing j with
  | nil => simp at h
  | cons e rest ih =>
    cases j with
    | zero => simp
    | succ n =>
      simp only [List.map_cons, List.getD_cons_succ]
      exact ih n (by simpa using h)

theorem getD_zip (l1 : List String) (l2 : List ℝ) (j : ℕ) (h1 : j < l1.length)
    (h2 : j < l2.length) :
    (List.zip l1 l2).getD j ("", 0) = (l1.getD j "", l2.getD j 0) := by
  induction l1 generalizing l2 j with
  | nil => simp at h1
  | cons a as ih =>
    cases l2 with
    | nil => simp at h2
    | cons b bs =>
      cases j with
      | zero => simp [List.zip_cons_cons]
      | succ n =>
        simp only [List.zip_cons_cons, List.getD_cons_succ]
        exact ih bs n (by simpa using h1) (by simpa using h2)

theorem getD_mem {α : Type} (l : List α) (j : ℕ) (d : α) (h : j < l.length) :
    l.getD j d ∈ l := by
  induction l generalizing j with
  | nil => simp at h
  | cons a as ih =>
    cases j with
    | zero => simp
    | succ n =>
      simp only [List.getD_cons_succ]
      exact List.mem_cons_of_mem a (ih n (by simpa using h))

theorem mem_zip_index (l1 : List String) (l2 : List ℝ) (x : String × ℝ)
    (hx : x ∈ List.zip l1 l2) :
    ∃ k, k < l1.length ∧ k < l2.length ∧ x = (l1.getD k "", l2.getD k 0) := by
  induction l1 generalizing l2 with
  | nil => simp [List.zip_nil_left] at hx
  | cons a as ih =>
    cases l2 with
    | nil => simp [List.zip_nil_right] at hx
    | cons b bs =>
      rw [List.zip_cons_cons] at hx
      rcases List.mem_cons.mp hx with rfl | hmem
      · exact ⟨0, by simp, by simp, by simp⟩
      · rcases ih bs hmem with ⟨k, hk1, hk2, hkeq⟩
        exact ⟨k + 1, by simpa using hk1, by simpa using hk2, by simpa using hkeq⟩

theorem allSameLength_of_dimsMatch {q : List ℝ} {cs : List (List ℝ)}
    (h : dimsMatch q cs = true) : allSameLength cs = true := by
  cases cs with
  | nil => rfl
  | cons c rest =>
    simp only [dimsMatch, List.all_cons, Bool.and_eq_true, beq_iff_eq] at h
    simp only [allSameLength]
    refine List.all_eq_true.mpr ?_
    intro x hx
    have hxl := List.all_eq_true.mp h.2 x hx
    simp only [beq_iff_eq] at hxl ⊢
    rw [hxl, h.1]

/-- C7 (amended): with a selfie containing a detectable face, a nonempty
well-dimensioned embeddings list and the NumPy backend, the response holds
one match per input embedding — the input-order photoId/score pairs up to
permutation — sorted in descending order of similarity; and when candidate
`j`'s embedding equals the (nonzero) selfie embedding while every other
candidate scores strictly below 1, candidate `j` appears first with
similarity exactly 1 (the claim's unqualified "appears first" fails when
another candidate also attains score 1, e.g. a positive scalar multiple
listed earlier; see the counterexample). -/
theorem c7_compare_faces_sorted (st : CalcState) (ce : CallEnv) (faces : List (List ℝ))
    (embs : List (String × List ℝ)) (j : ℕ)
    (hdev : st.device = Device.numpy)
    (hf : faces ≠ [])
    (he : embs ≠ [])
    (hwf : dimsMatch (faces.headD []) (embs.map Prod.snd) = true)
    (hj : j < embs.length)
    (hqj : (embs.getD j ("", [])).2 = faces.headD [])
    (hq0 : ∃ x ∈ faces.headD [], x ≠ 0)
    (hothers : ∀ i, i < embs.length → i ≠ j →
      simScore (faces.headD []) ((embs.getD i ("", [])).2) < 1) :
    ∃ ms, compare_faces st ce true true faces embs = CompareResponse.ok ms ∧
      ms.Perm (similarityMatches st ce (faces.headD []) embs) ∧
      ms.length = embs.length ∧
      ms.Pairwise (fun a b => b.2 ≤ a.2) ∧
      ms.headD ("", 0) = ((embs.getD j ("", [])).1, 1) := by
  set q := faces.headD [] with hqdef
  have hemb_ne : embs.isEmpty = false := by
    cases embs with
    | nil => exact absurd rfl he
    | cons a t => rfl
  have hfaces_ne : faces.isEmpty = false := by
    cases faces with
    | nil => exact absurd rfl hf
    | cons a t => rfl
  have hcf : compare_faces st ce true true faces embs =
      CompareResponse.ok (sortBySimilarityDesc (similarityMatches st ce q embs)) := by
    unfold compare_faces
    rw [if_neg (by simp [hemb_ne]), if_neg (by simp),
      if_neg (by simp [hfaces_ne]), if_neg (by simp [allSameLength_of_dimsMatch hwf])]
  have hbatch : cosine_similarity_batch st ce q (embs.map Prod.snd) =
      specCosineSimilarityBatch q (embs.map Prod.snd) := by
    rw [batch_numpy_device _ _ _ _ hdev, numpy_eq_spec hwf]
  set ids := embs.map Prod.fst with hids
  set sims := specCosineSimilarityBatch q (embs.map Prod.snd) with hsims
  have hmz : similarityMatches st ce q embs = List.zip ids sims := by
    rw [similarityMatches, hbatch]
  have hlen_ids : ids.length = embs.length := List.length_map _ _
  have hlen_sims : sims.length = embs.length := by
    rw [hsims, spec_length, List.length_map]
  have hlen_m : (List.zip ids sims).length = embs.length := by
    rw [List.length_zip, hlen_ids, hlen_sims, min_self]
  have hscore : ∀ k, k < embs.length →
      sims.getD k 0 = simScore q ((embs.getD k ("", [])).2) := by
    intro k hk
    rw [hsims, spec_getD q _ k (by rwa [List.length_map]), getD_map_snd embs k hk]
    rfl
  have hscore_j : sims.getD j 0 = 1 := by
    rw [hscore j hj, hqj]
    simp only [simScore]
    exact spec_self_similarity hq0
  have hzj : (List.zip ids sims).getD j ("", 0) = ((embs.getD j ("", [])).1, 1) := by
    rw [getD_zip ids sims j (by rw [hlen_ids]; exact hj) (by rw [hlen_sims]; exact hj),
      hscore_j, hids, getD_map_fst embs j hj]
  have hpair_mem : ((embs.getD j ("", [])).1, (1 : ℝ)) ∈ List.zip ids sims := by
    rw [← hzj]
    exact getD_mem _ j _ (by rw [hlen_m]; exact hj)
  set ms := sortBySimilarityDesc (List.zip ids sims) with hms
  have hperm : ms.Perm (List.zip ids sims) := sortBySimilarityDesc_perm _
  have hsorted : ms.Pairwise (fun a b => b.2 ≤ a.2) := sortBySimilarityDesc_sorted _
  have hmslen : ms.length = embs.length := by rw [hperm.length_eq, hlen_m]
  have hms_ne : ms ≠ [] := by
    intro hnil
    rw [hnil] at hmslen
    cases embs with
    | nil => exact he rfl
    | cons a t => simp at hmslen
  have hhead_ge : (1 : ℝ) ≤ (ms.headD ("", 0)).2 := by
    have hmem := hperm.mem_iff.mpr hpair_mem
    simpa using sorted_head_max ("", 0) hsorted hmem
  have hhead_mem : ms.headD ("", 0) ∈ List.zip ids sims :=
    hperm.mem_iff.mp (headD_mem ms ("", 0) hms_ne)
  obtain ⟨k, hk1, hk2, hkeq⟩ := mem_zip_index ids sims _ hhead_mem
  have hk : k < embs.length := by rwa [hlen_ids] at hk1
  have hkj : k = j := by
    by_contra hne
    have hlt := hothers k hk hne
    have hsnd : (ms.headD ("", 0)).2 = sims.getD k 0 := by rw [hkeq]
    rw [hsnd, hscore k hk] at hhead_ge
    exact absurd hhead_ge (not_le.mpr hlt)
  have hhead : ms.headD ("", 0) = ((embs.getD j ("", [])).1, 1) := by
    rw [hkeq, hkj, hids, getD_map_fst embs j hj, hscore_j]
  refine ⟨ms, ?_, ?_, hmslen, hsorted, hhead⟩
  · rw [hcf, hmz, ← hms]
  · rw [hmz]
    exact hperm

/-- Counterexample to C7 as stated: the selfie embedding is `[1, 0]`;
candidate "a" (listed first) is the positive scalar multiple `[2, 0]` and
candidate "b" equals the selfie embedding exactly.  Both score exactly 1,
the stable descending sort keeps input order on ties, so the first match is
"a" — the candidate whose embedding equals the selfie's does not appear
first. -/
theorem c7_counterexample :
    compare_faces numpyCalc quietCall true true [[1, 0]] [("a", [2, 0]), ("b", [1, 0])] =
      CompareResponse.ok [("a", 1), ("b", 1)] ∧
    ("b", ([1, 0] : List ℝ)).2 = ([[1, 0]] : List (List ℝ)).headD [] ∧
    ("a", ([2, 0] : List ℝ)).2 ≠ ([[1, 0]] : List (List ℝ)).headD [] ∧
    "a" ≠ "b" := by
  have hn1 : norm2 [1, 0] = 1 := by
    have h : sumSq [(1 : ℝ), 0] = 1 := by norm_num [sumSq]
    rw [norm2, h, Real.sqrt_one]
  have hn2 : norm2 [2, 0] = 2 := by
    have h : sumSq [(2 : ℝ), 0] = 4 := by norm_num [sumSq]
    rw [norm2, h, show (4 : ℝ) = 2 ^ 2 by norm_num, Real.sqrt_sq (by norm_num : (0 : ℝ) ≤ 2)]
  have hd1 : dotList [1, 0] [2, 0] = 2 := by norm_num [dotList]
  have hd2 : dotList [1, 0] [1, 0] = 1 := by norm_num [dotList]
  refine ⟨?_, rfl, by norm_num, by decide⟩
  have hsim : cosine_similarity_batch numpyCalc quietCall [1, 0] [[2, 0], [1, 0]] =
      [1, 1] := by
    rw [batch_numpy_device _ _ _ _ rfl, numpy_eq_spec (by rfl), specCosineSimilarityBatch]
    simp only [List.map_cons, List.map_nil]
    rw [hn1, hn2, hd1, hd2]
    norm_num
  have hm : similarityMatches numpyCalc quietCall [1, 0] [("a", [2, 0]), ("b", [1, 0])] =
      [("a", 1), ("b", 1)] := by
    rw [similarityMatches]
    simp only [List.map_cons, List.map_nil]
    rw [hsim]
    rfl
  have hsort : sortBySimilarityDesc [("a", 1), ("b", 1)] = [("a", 1), ("b", 1)] := by
    rw [sortBySimilarityDesc, sortBySimilarityDesc, sortBySimilarityDesc, insertByDesc,
      insertByDesc, if_pos (le_refl (1 : ℝ))]
  unfold compare_faces
  rw [if_neg (by simp), if_neg (by simp), if_neg (by simp), if_neg (by decide)]
  rw [show ([[1, 0]] : List (List ℝ)).headD [] = [1, 0] from rfl, hm, hsort]

/-- Witness for C7 (amended) at a concrete input: selfie embedding `[1, 0]`,
candidates "a" with `[0, 1]` (score 0) and "b" with `[1, 0]` (score 1). -/
theorem c7_witness :
    ∃ ms, compare_faces numpyCalc quietCall true true [[1, 0]]
        [("a", [0, 1]), ("b", [1, 0])] = CompareResponse.ok ms ∧
      ms.Perm (similarityMatches numpyCalc quietCall (([[1, 0]] : List (List ℝ)).headD [])
        [("a", [0, 1]), ("b", [1, 0])]) ∧
      ms.length = 2 ∧
      ms.Pairwise (fun a b => b.2 ≤ a.2) ∧
      ms.headD ("", 0) = ((([("a", [0, 1]), ("b", [1, 0])] :
        List (String × List ℝ)).getD 1 ("", [])).1, 1) := by
  have h := c7_compare_faces_sorted numpyCalc quietCall [[1, 0]]
    [("a", [0, 1]), ("b", [1, 0])] 1 rfl (by simp) (by simp) (by rfl) (by norm_num) rfl
    ⟨1, by simp, one_ne_zero⟩ ?_
  · simpa using h
  · intro i hi hne
    have hi2 : i < 2 := by simpa using hi
    have hi0 : i = 0 := by omega
    subst hi0
    simp only [simScore, List.getD_cons_zero]
    norm_num [dotList, List.zipWith_cons_cons, List.sum_cons, List.sum_nil]

end PinMyPic
